import Mathlib

/-!
Verification of the etcddump snapshot pipeline (src/main.rs).

The development shallowly embeds the program: Unix paths are lists of
characters, byte strings are lists of naturals, and every effect of the
pipeline (process spawn, etcd requests, HTTP requests to the ouger decoder,
filesystem calls) is an oracle field of a `World` record.  `main_internal`,
`get_key`, `ouger` and `set_max_open_files_limit` are translated from the
Rust source; the path operations mirror the semantics of Rust's
`std::path::Path` on Unix and `str::trim_start_matches`.
-/

set_option autoImplicit false

deriving instance DecidableEq for Except

namespace Etcddump

/-- A filesystem path / key, as its character sequence. -/
abbrev Path := List Char

/-- A byte string (etcd values, HTTP bodies). -/
abbrev Bytes := List Nat

/-! ## Path primitives (Unix semantics of `std::path::Path`) -/

/-- Rust `str::trim_start_matches('/')`: drop every leading slash. -/
def trimSlashes : Path → Path
  | [] => []
  | c :: cs => if c = '/' then trimSlashes cs else c :: cs

/-- Stripping only the first leading slash, used to state the spec's
reading of the path derivation (see the C3 claim). -/
def stripOneSlash : Path → Path
  | '/' :: cs => cs
  | cs => cs

/-- Whether a path ends with a separator (Rust `PathBuf::push` checks this
to decide whether to insert one). -/
def endsWithSlash (l : Path) : Bool :=
  match l.getLast? with
  | some c => c = '/'
  | none => false

/-- Rust `Path::join` / `PathBuf::push` on Unix: an absolute argument
replaces the base; otherwise the argument is appended, inserting a
separator unless the base is empty or already ends with one. -/
def pathJoin (base p : Path) : Path :=
  if p.head? = some '/' then p
  else if base = [] then p
  else if endsWithSlash base then base ++ p
  else base ++ '/' :: p

/-- Split a character list on slashes (helper for `Path::components`). -/
def splitSlash : Path → List (List Char)
  | [] => [[]]
  | c :: cs =>
    if c = '/' then [] :: splitSlash cs
    else
      match splitSlash cs with
      | [] => [[c]]
      | s :: ss => (c :: s) :: ss

/-- The non-root components of a path: empty segments and `.` segments are
skipped, as in Rust's `Path::components` (a leading lone `.` is handled by
`hasCurDirB`). -/
def segs (l : Path) : List (List Char) :=
  (splitSlash l).filter (fun s => decide (s ≠ [] ∧ s ≠ ['.']))

/-- Rust `Path::has_root` on Unix: the path begins with a separator. -/
def hasRootB (l : Path) : Bool :=
  l.head? = some '/'

/-- Rust keeps a leading `CurDir` component exactly when the path is
relative and starts with `.` followed by nothing or a separator. -/
def hasCurDirB (l : Path) : Bool :=
  decide (l = ['.']) || decide (l.take 2 = ['.', '/'])

/-- The component list of a path as produced by Rust's `Path::components`,
without the root component. -/
def pathComponents (l : Path) : List (List Char) :=
  (if hasCurDirB l then [['.']] else []) ++ segs l

/-- Rust `Path::parent`: `none` when the path is empty or consists only of
a root; otherwise the path with its last component removed (reconstructed
in normalized form, which is equivalent for the filesystem calls fed with
it). -/
def parentOf (l : Path) : Option Path :=
  match pathComponents l with
  | [] => none
  | comps => some ((if hasRootB l then ['/'] else []) ++
      List.intercalate ['/'] comps.dropLast)

/-! ### Path lemmas -/

theorem splitSlash_ne_nil (l : Path) : splitSlash l ≠ [] := by
  cases l with
  | nil => simp [splitSlash]
  | cons c cs =>
    simp only [splitSlash]
    split
    · simp
    · split <;> simp

theorem splitSlash_append (xs ys : Path) :
    splitSlash (xs ++ '/' :: ys) = splitSlash xs ++ splitSlash ys := by
  induction xs with
  | nil => simp [splitSlash]
  | cons c cs ih =>
    by_cases hc : c = '/'
    · subst hc
      simp [splitSlash, ih]
    · simp only [List.cons_append, splitSlash, if_neg hc, ih]
      cases hcs : splitSlash cs with
      | nil => exact absurd hcs (splitSlash_ne_nil cs)
      | cons s ss =>
        simp only [List.append_eq]
        rw [ih, hcs]
        simp

theorem segs_append (xs ys : Path) :
    segs (xs ++ '/' :: ys) = segs xs ++ segs ys := by
  simp [segs, splitSlash_append, List.filter_append]

theorem segs_nil : segs [] = [] := rfl

theorem trimSlashes_head (l : Path) : (trimSlashes l).head? ≠ some '/' := by
  induction l with
  | nil => simp [trimSlashes]
  | cons c cs ih =>
    simp only [trimSlashes]
    split
    · exact ih
    · next h => simpa using fun he => h he

theorem trimSlashes_cons_slash (l : Path) :
    trimSlashes ('/' :: l) = trimSlashes l := by
  simp [trimSlashes]

theorem segs_join (base t : Path) (hb : base ≠ []) (ht : t.head? ≠ some '/') :
    segs (pathJoin base t) = segs base ++ segs t := by
  unfold pathJoin
  rw [if_neg ht, if_neg hb]
  by_cases he : endsWithSlash base = true
  · rw [if_pos he]
    have h1 : base.dropLast ++ [base.getLast hb] = base :=
      List.dropLast_append_getLast hb
    have h2 : base.getLast hb = '/' := by
      unfold endsWithSlash at he
      rw [List.getLast?_eq_getLast base hb] at he
      simpa using he
    have h4 : segs base = segs base.dropLast := by
      conv_lhs => rw [← h1, h2]
      rw [show base.dropLast ++ ['/'] = base.dropLast ++ '/' :: ([] : Path) by simp,
        segs_append, segs_nil, List.append_nil]
    have h5 : base ++ t = base.dropLast ++ '/' :: t := by
      conv_lhs => rw [← h1, h2]
      simp
    rw [h5, segs_append, h4]
  · rw [if_neg he, segs_append]

theorem hasCurDir_join (base t : Path) (hc : hasCurDirB base = true)
    (ht : t.head? ≠ some '/') : hasCurDirB (pathJoin base t) = true := by
  simp only [hasCurDirB, Bool.or_eq_true, decide_eq_true_eq] at hc
  rcases hc with hc | hc
  · subst hc
    unfold pathJoin
    rw [if_neg ht]
    simp [endsWithSlash, hasCurDirB]
  · rcases base with _ | ⟨c1, rest⟩
    · simp at hc
    · rcases rest with _ | ⟨c2, rest2⟩
      · simp at hc
      · simp only [List.take, List.cons.injEq] at hc
        obtain ⟨rfl, rfl, -⟩ := hc
        unfold pathJoin
        rw [if_neg ht, if_neg (by simp : ¬('.' :: '/' :: rest2 : Path) = [])]
        by_cases he : endsWithSlash ('.' :: '/' :: rest2) = true
        · rw [if_pos he]
          simp [hasCurDirB]
        · rw [if_neg he]
          simp [hasCurDirB]

theorem components_join_ne_nil (base t : Path) (hb : pathComponents base ≠ [])
    (ht : t.head? ≠ some '/') : pathComponents (pathJoin base t) ≠ [] := by
  have hbase : base ≠ [] := by
    rintro rfl
    exact hb (by simp [pathComponents, hasCurDirB, segs_nil])
  by_cases hs : segs base = []
  · have hcur : hasCurDirB base = true := by
      by_contra hcur
      simp only [Bool.not_eq_true] at hcur
      exact hb (by simp [pathComponents, hcur, hs])
    have := hasCurDir_join base t hcur ht
    simp [pathComponents, this]
  · intro h
    rw [pathComponents, segs_join base t hbase ht] at h
    rcases List.append_eq_nil.mp h with ⟨-, h2⟩
    exact hs (List.append_eq_nil.mp h2).1

theorem parentOf_ne_none (l : Path) (h : pathComponents l ≠ []) :
    parentOf l ≠ none := by
  unfold parentOf
  cases hc : pathComponents l with
  | nil => exact absurd hc h
  | cons c cs => simp

/-! ## The ouger decoder HTTP call (`ouger` in main.rs) -/

/-- `OUGER_SERVER_PORT` from main.rs. -/
def OUGER_SERVER_PORT : Nat := 9998

/-- The URL path of the decode operation: `ouger("decode", ...)`. -/
def decodeOp : Path := "decode".data

/-- The request `ouger` issues: a POST to
`http://localhost:<port>/<ouger_path>` whose body is the raw etcd value. -/
structure OugerRequest where
  port : Nat
  ougerPath : Path
  body : Bytes
deriving DecidableEq

/-- The observable parts of the HTTP response `ouger` inspects: the status
code, the optional content-length header, and the outcome of reading the
body (`res.bytes()` may itself fail with a transport error). -/
structure HttpResponse where
  status : Nat
  contentLength : Option Nat
  body : Except String Bytes
deriving DecidableEq

/-- `reqwest::StatusCode::is_success`: 2xx. -/
def statusIsSuccess (s : Nat) : Bool :=
  200 ≤ s && s < 300

/-- The errors `ouger` can return, one per `bail`/`?` site in main.rs:
connection failure ("ouger server not running"), non-success status,
missing content length, and a failure while reading the body bytes. -/
inductive OugerErr where
  | serverNotRunning (e : String)
  | nonSuccessStatus (code : Nat)
  | noContentLength
  | bodyReadFailed (e : String)
deriving DecidableEq

/-- `ouger` from main.rs.  `http` is the oracle giving the outcome of the
POST: either a connection-level error or a response. -/
def ouger (http : OugerRequest → Except String HttpResponse)
    (ougerPath : Path) (rawEtcdValue : Bytes) : Except OugerErr Bytes :=
  match http ⟨OUGER_SERVER_PORT, ougerPath, rawEtcdValue⟩ with
  | .error e => .error (.serverNotRunning e)
  | .ok res =>
    if statusIsSuccess res.status then
      if res.contentLength.isSome then
        match res.body with
        | .error e => .error (.bodyReadFailed e)
        | .ok b => .ok b
      else .error .noContentLength
    else .error (.nonSuccessStatus res.status)

/-! ## etcd listing options and key extraction -/

/-- The fields of `etcd_client::GetOptions` exercised by main.rs. -/
structure EtcdGetOptions where
  prefixFlag : Bool := false
  limit : Nat := 0
  keysOnly : Bool := false
deriving DecidableEq

/-- `GetOptions::with_prefix`. -/
def withPrefix (o : EtcdGetOptions) : EtcdGetOptions :=
  { o with prefixFlag := true }

/-- `GetOptions::with_limit`. -/
def withLimit (o : EtcdGetOptions) (n : Nat) : EtcdGetOptions :=
  { o with limit := n }

/-- `GetOptions::with_keys_only`. -/
def withKeysOnly (o : EtcdGetOptions) : EtcdGetOptions :=
  { o with keysOnly := true }

/-- `etcd_get_options` from `main_internal`:
`GetOptions::new().with_prefix().with_limit(0).with_keys_only()`. -/
def etcd_get_options : EtcdGetOptions :=
  withKeysOnly (withLimit (withPrefix {}) 0)

/-- One key-value pair of the listing response; `keyStr` is the outcome of
`KeyValue::key_str()`, i.e. the UTF-8 reading of the raw key bytes or a
decode error. -/
structure KeyValue where
  keyStr : Except String Path
deriving DecidableEq

/-- The key collection in `main_internal`:
`kvs.iter().map(|k| Ok(k.key_str()?.to_string())).collect::<Result<Vec<String>>>()`.
It stops at the first non-UTF-8 key and otherwise keeps every key. -/
def collectKeys : List KeyValue → Except String (List Path)
  | [] => .ok []
  | kv :: rest =>
    match kv.keyStr with
    | .error e => .error e
    | .ok s =>
      match collectKeys rest with
      | .error e => .error e
      | .ok l => .ok (s :: l)

/-! ## Resource limits (`set_max_open_files_limit` in main.rs) -/

/-- `libc::rlimit`. -/
structure Rlimit where
  rlim_cur : Nat
  rlim_max : Nat
deriving DecidableEq

/-- Modelled from the spec: the kernel's `setrlimit` acceptance rule is not
part of this repository; POSIX allows an unprivileged process any new
limits with `rlim_cur ≤ rlim_max` as long as `rlim_max` is not raised
above the current hard limit. -/
def rlimitSetAllowed (old new : Rlimit) : Bool :=
  new.rlim_cur ≤ new.rlim_max && new.rlim_max ≤ old.rlim_max

/-- `set_max_open_files_limit` from main.rs: read the current limits and
set the soft limit to the hard limit, keeping the hard limit.  `current`
is the state `getrlimit` reports; the result is the state installed by
`setrlimit`, or the bail message when the kernel refuses. -/
def set_max_open_files_limit (current : Rlimit) : Except String Rlimit :=
  let new_limit : Rlimit := ⟨current.rlim_max, current.rlim_max⟩
  if rlimitSetAllowed current new_limit then .ok new_limit
  else .error "Failed to set max open files limit"

/-! ## The pipeline (`main_internal` and `get_key` in main.rs) -/

/-- The failure cases of the pipeline, one per `?`/`context` site in
`main_internal` and `get_key`.  A panic of the `parent().unwrap()` call in
`get_key` surfaces as `unwrapPanicked`: inside a spawned task a panic
becomes a `JoinError`, which `task.await??` converts into the run's
error. -/
inductive PipelineError where
  | spawnFailed (e : String)
  | connectFailed (e : String)
  | listFailed (e : String)
  | keyDecodeFailed (e : String)
  | etcdGetFailed (e : String)
  | ougerDecodeFailed (e : OugerErr)
  | unwrapPanicked
  | createDirFailed (e : String)
  | writeFailed (e : String)
  | killFailed (e : String)
deriving DecidableEq

/-- The environment the pipeline runs against.  Each field is the outcome
the outside world gives to the corresponding effect; the pipeline is the
deterministic function of these outcomes written in main.rs. -/
structure World where
  /-- Outcome of `Command::new("ouger_server")...spawn()`. -/
  spawnOuger : Except String Unit
  /-- Outcome of `EtcdClient::connect`. -/
  connect : Except String Unit
  /-- Outcome of the listing request `get("/", Some(etcd_get_options))`. -/
  listResponse : Except String (List KeyValue)
  /-- Outcome of the per-key `get(key, None)` at fetch time: a connection
  error, or the value if the key still exists. -/
  getValue : Path → Except String (Option Bytes)
  /-- Outcome of the HTTP POST to the ouger server. -/
  http : OugerRequest → Except String HttpResponse
  /-- Outcome of `std::fs::create_dir_all`. -/
  createDirAll : Path → Except String Unit
  /-- Outcome of `std::fs::write` (atomic in the model: on failure no file
  appears). -/
  writeFile : Path → Bytes → Except String Unit
  /-- Outcome of `ouger_command.kill()`. -/
  kill : Except String Unit

/-- The destination path computed in `get_key`:
`output_dir.join(key.trim_start_matches('/'))`. -/
def outputFile (output_dir key : Path) : Path :=
  pathJoin output_dir (trimSlashes key)

/-- `get_key` from main.rs.  On success it returns the write it performed
(`none` when the key had disappeared and nothing was written). -/
def get_key (w : World) (output_dir key : Path) :
    Except PipelineError (Option (Path × Bytes)) :=
  match w.getValue key with
  | .error e => .error (.etcdGetFailed e)
  | .ok none => .ok none
  | .ok (some raw_etcd_value) =>
    match ouger w.http decodeOp raw_etcd_value with
    | .error e => .error (.ougerDecodeFailed e)
    | .ok decoded_value =>
      let output_file := outputFile output_dir key
      match parentOf output_file with
      | none => .error .unwrapPanicked
      | some parentDir =>
        match w.createDirAll parentDir with
        | .error e => .error (.createDirFailed e)
        | .ok _ =>
          match w.writeFile output_file decoded_value with
          | .error e => .error (.writeFailed e)
          | .ok _ => .ok (some (output_file, decoded_value))

/-- The externally visible stages of `main_internal`, in the order the
code reaches them; the listing stage records the request it makes. -/
inductive Stage where
  | spawn
  | connect
  | list (key : Path) (options : EtcdGetOptions)
  | tasks
  | kill
deriving DecidableEq

/-- What one run of `main_internal` does: its returned result, the stages
it reached in order, whether `kill` was invoked on the decoder subprocess,
and the files written (all completed tasks contribute, in task order). -/
structure RunResult where
  result : Except PipelineError Unit
  trace : List Stage
  killed : Bool
  writes : List (Path × Bytes)
deriving DecidableEq

/-- The error of a task outcome, if any. -/
def errToOpt (r : Except PipelineError (Option (Path × Bytes))) :
    Option PipelineError :=
  match r with
  | .error e => some e
  | .ok _ => none

/-- The first failure among the awaited tasks, in await (= spawn) order:
`for task in tasks { task.await?? }`. -/
def firstError (rs : List (Except PipelineError (Option (Path × Bytes)))) :
    Option PipelineError :=
  rs.findSome? errToOpt

/-- The write performed by one successfully completed task, if any. -/
def okWrite (r : Except PipelineError (Option (Path × Bytes))) :
    Option (Path × Bytes) :=
  match r with
  | .ok (some wr) => some wr
  | _ => none

/-- The trace of a run that reached the listing request. -/
def listTrace : List Stage :=
  [Stage.spawn, Stage.connect, Stage.list "/".data etcd_get_options]

/-- The task phase of `main_internal`: spawn one `get_key` task per key,
await them all in spawn order surfacing the first failure, then (only
when every earlier step succeeded) kill the ouger subprocess.  Tasks are
never cancelled, so every task runs and the writes of all successfully
completed tasks are on disk. -/
def taskPhase (w : World) (output_dir : Path) (keys : List Path) : RunResult :=
  let results := keys.map (get_key w output_dir)
  let writes := results.filterMap okWrite
  match firstError results with
  | some e => ⟨.error e, listTrace ++ [.tasks], false, writes⟩
  | none =>
    match w.kill with
    | .error e =>
      ⟨.error (.killFailed e), listTrace ++ [.tasks, .kill], true, writes⟩
    | .ok _ =>
      ⟨.ok (), listTrace ++ [.tasks, .kill], true, writes⟩

/-- `main_internal` from main.rs, as a function of the world.  The result
is determined by the stage failures in program order: subprocess spawn,
etcd connect, listing, UTF-8 key collection, then the task phase. -/
def main_internal (w : World) (output_dir : Path) : RunResult :=
  match w.spawnOuger with
  | .error e => ⟨.error (.spawnFailed e), [.spawn], false, []⟩
  | .ok _ =>
    match w.connect with
    | .error e => ⟨.error (.connectFailed e), [.spawn, .connect], false, []⟩
    | .ok _ =>
      match w.listResponse with
      | .error e => ⟨.error (.listFailed e), listTrace, false, []⟩
      | .ok kvs =>
        match collectKeys kvs with
        | .error e => ⟨.error (.keyDecodeFailed e), listTrace, false, []⟩
        | .ok keys => taskPhase w output_dir keys

/-- The keys the initial listing produced, when it succeeded. -/
def listedKeys (w : World) : Option (List Path) :=
  match w.listResponse with
  | .error _ => none
  | .ok kvs =>
    match collectKeys kvs with
    | .error _ => none
    | .ok keys => some keys

/-- The listed keys whose value still existed at fetch time. -/
def survivors (w : World) (keys : List Path) : List Path :=
  keys.filter (fun k =>
    match w.getValue k with
    | .ok (some _) => true
    | _ => false)

/-- The decoder's output for a key's fetched value (meaningful for
survivors of a successful run). -/
def decodeOf (w : World) (k : Path) : Bytes :=
  match w.getValue k with
  | .ok (some v) =>
    match ouger w.http decodeOp v with
    | .ok d => d
    | .error _ => []
  | _ => []

/-! ## Helper lemmas about the pipeline -/

theorem collectKeys_ok_iff (kvs : List KeyValue) (keys : List Path) :
    collectKeys kvs = .ok keys ↔
      kvs.map KeyValue.keyStr = keys.map Except.ok := by
  induction kvs generalizing keys with
  | nil => cases keys <;> simp [collectKeys]
  | cons kv rest ih =>
    cases hk : kv.keyStr with
    | error e => cases keys <;> simp [collectKeys, hk]
    | ok s =>
      cases hr : collectKeys rest with
      | error e =>
        cases keys with
        | nil => simp [collectKeys, hk, hr]
        | cons k ks =>
          simp only [collectKeys, hk, hr, List.map_cons, List.cons.injEq]
          constructor
          · intro h
            cases h
          · rintro ⟨-, hmap⟩
            have := (ih ks).mpr hmap
            rw [hr] at this
            cases this
      | ok l =>
        cases keys with
        | nil => simp [collectKeys, hk, hr]
        | cons k ks =>
          have hmap := ih ks
          rw [hr] at hmap
          simp only [Except.ok.injEq] at hmap
          simp only [collectKeys, hk, hr, List.map_cons, List.cons.injEq,
            Except.ok.injEq]
          exact ⟨fun h => ⟨h.1, hmap.mp h.2⟩, fun h => ⟨h.1, hmap.mpr h.2⟩⟩

theorem get_key_of_deleted (w : World) (output_dir key : Path)
    (h : w.getValue key = .ok none) : get_key w output_dir key = .ok none := by
  simp [get_key, h]

theorem get_key_error_shape (w : World) (output_dir key : Path)
    (e : PipelineError) (h : get_key w output_dir key = .error e) :
    (∀ s, e ≠ .spawnFailed s) ∧ (∀ s, e ≠ .connectFailed s) ∧
    (∀ s, e ≠ .listFailed s) ∧ (∀ s, e ≠ .keyDecodeFailed s) ∧
    (∀ s, e ≠ .killFailed s) := by
  unfold get_key at h
  cases hg : w.getValue key with
  | error e2 =>
    simp only [hg, Except.error.injEq] at h
    subst h
    simp
  | ok o =>
    simp only [hg] at h
    cases o with
    | none => cases h
    | some v =>
      cases ho : ouger w.http decodeOp v with
      | error e2 =>
        simp only [ho, Except.error.injEq] at h
        subst h
        simp
      | ok d =>
        simp only [ho] at h
        cases hp : parentOf (outputFile output_dir key) with
        | none =>
          simp only [hp, Except.error.injEq] at h
          subst h
          simp
        | some par =>
          simp only [hp] at h
          cases hc : w.createDirAll par with
          | error e2 =>
            simp only [hc, Except.error.injEq] at h
            subst h
            simp
          | ok u =>
            simp only [hc] at h
            cases hw : w.writeFile (outputFile output_dir key) d with
            | error e2 =>
              simp only [hw, Except.error.injEq] at h
              subst h
              simp
            | ok u2 =>
              simp only [hw] at h
              cases h

theorem writes_of_all_ok (w : World) (output_dir : Path) (keys : List Path)
    (h : ∀ k ∈ keys, errToOpt (get_key w output_dir k) = none) :
    (keys.map (get_key w output_dir)).filterMap okWrite =
      (survivors w keys).map
        (fun k => (outputFile output_dir k, decodeOf w k)) := by
  induction keys with
  | nil => simp [survivors]
  | cons k ks ih =>
    have hk := h k (List.mem_cons_self k ks)
    have hks := ih (fun x hx => h x (List.mem_cons_of_mem k hx))
    cases hg : w.getValue k with
    | error e => simp [get_key, hg, errToOpt] at hk
    | ok o =>
      cases o with
      | none =>
        rw [List.map_cons, List.filterMap_cons, get_key_of_deleted w output_dir k hg]
        have hsurv : survivors w (k :: ks) = survivors w ks := by
          simp [survivors, List.filter_cons, hg]
        rw [hsurv]
        simp only [okWrite]
        exact hks
      | some v =>
        cases ho : ouger w.http decodeOp v with
        | error e => simp [get_key, hg, ho, errToOpt] at hk
        | ok d =>
          cases hp : parentOf (outputFile output_dir k) with
          | none => simp [get_key, hg, ho, hp, errToOpt] at hk
          | some par =>
            cases hc : w.createDirAll par with
            | error e => simp [get_key, hg, ho, hp, hc, errToOpt] at hk
            | ok u =>
              cases hw : w.writeFile (outputFile output_dir k) d with
              | error e => simp [get_key, hg, ho, hp, hc, hw, errToOpt] at hk
              | ok u2 =>
                have hgk : get_key w output_dir k =
                    .ok (some (outputFile output_dir k, d)) := by
                  simp [get_key, hg, ho, hp, hc, hw]
                have hdec : decodeOf w k = d := by
                  simp [decodeOf, hg, ho]
                have hsurv : survivors w (k :: ks) = k :: survivors w ks := by
                  simp [survivors, List.filter_cons, hg]
                rw [List.map_cons, List.filterMap_cons, hgk, hsurv,
                  List.map_cons, hdec]
                simp only [okWrite]
                rw [hks]

theorem main_internal_eq_taskPhase (w : World) (output_dir : Path)
    (kvs : List KeyValue) (keys : List Path)
    (h1 : w.spawnOuger = .ok ()) (h2 : w.connect = .ok ())
    (h3 : w.listResponse = .ok kvs) (h4 : collectKeys kvs = .ok keys) :
    main_internal w output_dir = taskPhase w output_dir keys := by
  unfold main_internal
  simp only [h1, h2, h3, h4]

theorem listedKeys_inv (w : World) (keys : List Path)
    (h : listedKeys w = some keys) :
    ∃ kvs, w.listResponse = .ok kvs ∧ collectKeys kvs = .ok keys := by
  unfold listedKeys at h
  cases hl : w.listResponse with
  | error e =>
    simp only [hl] at h
    exact Option.noConfusion h
  | ok kvs =>
    simp only [hl] at h
    cases hc : collectKeys kvs with
    | error e =>
      simp only [hc] at h
      exact Option.noConfusion h
    | ok ks =>
      simp only [hc, Option.some.injEq] at h
      exact ⟨kvs, rfl, by rw [hc, h]⟩

theorem firstError_of_prefix_ok
    (rs1 rs2 : List (Except PipelineError (Option (Path × Bytes))))
    (r : Except PipelineError (Option (Path × Bytes))) (e : PipelineError)
    (h1 : ∀ x ∈ rs1, errToOpt x = none) (hr : errToOpt r = some e) :
    firstError (rs1 ++ r :: rs2) = some e := by
  unfold firstError
  rw [List.findSome?_append, List.findSome?_eq_none_iff.mpr h1,
    List.findSome?_cons, hr]
  rfl

/-- The five stage traces a run can end with: each is an initial segment
of the full stage order. -/
def fullTrace : List Stage :=
  listTrace ++ [Stage.tasks, Stage.kill]

theorem trace_cases (w : World) (output_dir : Path) :
    (main_internal w output_dir).trace = fullTrace.take 1 ∨
    (main_internal w output_dir).trace = fullTrace.take 2 ∨
    (main_internal w output_dir).trace = fullTrace.take 3 ∨
    (main_internal w output_dir).trace = fullTrace.take 4 ∨
    (main_internal w output_dir).trace = fullTrace := by
  cases hs : w.spawnOuger with
  | error e => simp [main_internal, hs, fullTrace, listTrace]
  | ok u =>
    cases hc : w.connect with
    | error e => simp [main_internal, hs, hc, fullTrace, listTrace]
    | ok u2 =>
      cases hl : w.listResponse with
      | error e => simp [main_internal, hs, hc, hl, fullTrace, listTrace]
      | ok kvs =>
        cases hcol : collectKeys kvs with
        | error e => simp [main_internal, hs, hc, hl, hcol, fullTrace, listTrace]
        | ok keys =>
          cases hfe : firstError (keys.map (get_key w output_dir)) with
          | some e =>
            simp [main_internal, taskPhase, hs, hc, hl, hcol, hfe, fullTrace,
              listTrace]
          | none =>
            cases hk : w.kill with
            | error e =>
              simp [main_internal, taskPhase, hs, hc, hl, hcol, hfe, hk,
                fullTrace, listTrace]
            | ok u3 =>
              simp [main_internal, taskPhase, hs, hc, hl, hcol, hfe, hk,
                fullTrace, listTrace]

theorem trace_isPrefix (w : World) (output_dir : Path) :
    (main_internal w output_dir).trace <+: fullTrace := by
  rcases trace_cases w output_dir with h | h | h | h | h
  · rw [h]; exact List.take_prefix 1 fullTrace
  · rw [h]; exact List.take_prefix 2 fullTrace
  · rw [h]; exact List.take_prefix 3 fullTrace
  · rw [h]; exact List.take_prefix 4 fullTrace
  · rw [h]

/-! ## Concrete environments used as witnesses and counterexamples -/

/-- A well-behaved decoder endpoint: success status, a content length, and
a body readable as `0` prepended to the request payload. -/
def okHttp : OugerRequest → Except String HttpResponse :=
  fun r => .ok ⟨200, some r.body.length, .ok (0 :: r.body)⟩

/-! ## C3: derivation of the output path from the key -/

/-- C3, counterexample: the output path is NOT the output directory joined
with the key with only its single leading separator stripped.  For the key
`//a` the code strips ALL leading separators and produces `out/a`, while
the single-strip reading would join with `/a` (whose remaining leading
separator, being absolute, would even escape the output directory under
Rust join semantics). -/
theorem c3_counterexample :
    outputFile "out".data "//a".data = "out/a".data ∧
    pathJoin "out".data (stripOneSlash "//a".data) = "/a".data ∧
    outputFile "out".data "//a".data ≠
      pathJoin "out".data (stripOneSlash "//a".data) := by
  refine ⟨by decide, by decide, by decide⟩

/-- C3, amended: the output file path is the output directory joined with
the key with ALL leading path separators stripped: prepending a further
separator to the key leaves the output path unchanged, and the derived
relative part never begins with a separator. -/
theorem c3_output_path_strips_all_leading_separators (dir key : Path) :
    outputFile dir ('/' :: key) = outputFile dir key ∧
    (trimSlashes key).head? ≠ some '/' := by
  exact ⟨by simp [outputFile, trimSlashes_cons_slash], trimSlashes_head key⟩

/-- C3, witness at a concrete key. -/
theorem c3_witness :
    outputFile "out".data ('/' :: "/a".data) = outputFile "out".data "/a".data ∧
    (trimSlashes "/a".data).head? ≠ some '/' :=
  c3_output_path_strips_all_leading_separators "out".data "/a".data

/-! ## C10: the parent lookup in get_key -/

/-- Environment for the C10 counterexample: the store holds a value for
every key, the decoder behaves, the filesystem accepts everything. -/
def wRoot : World where
  spawnOuger := .ok ()
  connect := .ok ()
  listResponse := .ok [⟨.ok "/".data⟩]
  getValue := fun _ => .ok (some [1])
  http := okHttp
  createDirAll := fun _ => .ok ()
  writeFile := fun _ _ => .ok ()
  kill := .ok ()

/-- C10, counterexample: with output directory `/` and the key `/`, the
derived path is `/` itself, whose parent lookup returns `none`, so the
`unwrap` in `get_key` panics (surfacing as a task failure). -/
theorem c10_counterexample :
    parentOf (outputFile "/".data "/".data) = none ∧
    get_key wRoot "/".data "/".data = .error .unwrapPanicked := by
  refine ⟨by decide, by decide⟩

/-- C10, amended: whenever the output directory has at least one path
component (every directory except the filesystem root `/`, the empty path
and slash-only paths), the parent lookup on the derived output path
succeeds for every key, and the unwrap in `get_key` cannot panic. -/
theorem c10_parent_unwrap_safe (w : World) (dir key : Path)
    (h : pathComponents dir ≠ []) :
    get_key w dir key ≠ .error .unwrapPanicked := by
  have hp : parentOf (outputFile dir key) ≠ none :=
    parentOf_ne_none _
      (components_join_ne_nil dir (trimSlashes key) h (trimSlashes_head key))
  unfold get_key
  cases hg : w.getValue key with
  | error e => simp
  | ok o =>
    cases o with
    | none => simp
    | some v =>
      cases ho : ouger w.http decodeOp v with
      | error e => simp [ho]
      | ok d =>
        cases hpo : parentOf (outputFile dir key) with
        | none => exact absurd hpo hp
        | some par =>
          simp only [ho, hpo]
          cases hc : w.createDirAll par with
          | error e => simp [hc]
          | ok u =>
            simp only [hc]
            cases hw : w.writeFile (outputFile dir key) d with
            | error e => simp [hw]
            | ok u2 => simp [hw]

/-- C10, witness at a concrete environment and output directory. -/
theorem c10_witness :
    get_key wRoot "out".data "/a".data ≠ .error .unwrapPanicked :=
  c10_parent_unwrap_safe wRoot "out".data "/a".data (by decide)

/-! ## C5: error cases of the ouger decode call -/

/-- An endpoint whose response passes the status and content-length checks
but whose body read fails mid-stream. -/
def badBodyHttp : OugerRequest → Except String HttpResponse :=
  fun _ => .ok ⟨200, some 5, .error "connection reset while reading body"⟩

/-- C5, counterexample: the decode call can also fail when the connection
was established, the status was a success and a content length was
present — namely when reading the response body fails. -/
theorem c5_counterexample :
    ouger badBodyHttp "decode".data [0] =
      .error (.bodyReadFailed "connection reset while reading body") ∧
    statusIsSuccess 200 = true := by
  refine ⟨by decide, by decide⟩

/-- C5, amended: the decode operation returns an error exactly when the
loopback connection cannot be established, or the response status is not a
success status, or the response omits a content-length indicator, or
reading the response body fails; otherwise it returns the response body
bytes.  It consults the endpoint exactly once (no retries). -/
theorem c5_decode_error_cases
    (http : OugerRequest → Except String HttpResponse)
    (pa : Path) (body : Bytes) :
    (∀ e, http ⟨OUGER_SERVER_PORT, pa, body⟩ = .error e →
      ouger http pa body = .error (.serverNotRunning e)) ∧
    (∀ res, http ⟨OUGER_SERVER_PORT, pa, body⟩ = .ok res →
      (statusIsSuccess res.status = false →
        ouger http pa body = .error (.nonSuccessStatus res.status)) ∧
      (statusIsSuccess res.status = true → res.contentLength = none →
        ouger http pa body = .error .noContentLength) ∧
      (∀ e, statusIsSuccess res.status = true →
        res.contentLength.isSome = true → res.body = .error e →
        ouger http pa body = .error (.bodyReadFailed e)) ∧
      (∀ b, statusIsSuccess res.status = true →
        res.contentLength.isSome = true → res.body = .ok b →
        ouger http pa body = .ok b)) := by
  refine ⟨fun e he => by simp [ouger, he], fun res hres => ⟨?_, ?_, ?_, ?_⟩⟩
  · intro hst
    simp [ouger, hres, hst]
  · intro hst hcl
    simp [ouger, hres, hst, hcl]
  · intro e hst hcl hb
    simp [ouger, hres, hst, hcl, hb]
  · intro b hst hcl hb
    simp [ouger, hres, hst, hcl, hb]

/-- C5, witness: a successful decode at a concrete endpoint. -/
theorem c5_witness : ouger okHttp "decode".data [1] = .ok [0, 1] :=
  ((c5_decode_error_cases okHttp "decode".data [1]).2
    ⟨200, some 1, .ok [0, 1]⟩ rfl).2.2.2 [0, 1] (by decide) (by decide) rfl

/-! ## C7: the open-files limit adjustment -/

/-- C7: the adjustment sets the soft limit to the hard limit, never fails
under the modelled kernel rule (the hard limit is not raised), is a no-op
when the limits are already equal, and is idempotent. -/
theorem c7_fd_limit_idempotent (st : Rlimit) (h : st.rlim_cur = st.rlim_max) :
    set_max_open_files_limit st = .ok st ∧
    (∀ s, set_max_open_files_limit s = .ok ⟨s.rlim_max, s.rlim_max⟩) ∧
    (∀ s s2, set_max_open_files_limit s = .ok s2 →
      set_max_open_files_limit s2 = .ok s2) := by
  have hall : ∀ s, set_max_open_files_limit s = .ok ⟨s.rlim_max, s.rlim_max⟩ := by
    intro s
    simp [set_max_open_files_limit, rlimitSetAllowed]
  refine ⟨?_, hall, ?_⟩
  · cases st with
    | mk cur max =>
      simp only at h
      subst h
      exact hall ⟨cur, cur⟩
  · intro s s2 hs2
    have h2 := hall s
    rw [hs2] at h2
    have h3 : s2 = ⟨s.rlim_max, s.rlim_max⟩ := Except.ok.inj h2
    subst h3
    exact hall _

/-- C7, witness: a state already at its maximum. -/
theorem c7_witness : set_max_open_files_limit ⟨7, 7⟩ = .ok ⟨7, 7⟩ :=
  (c7_fd_limit_idempotent ⟨7, 7⟩ rfl).1

/-! ## C2: teardown of the decoder subprocess -/

/-- Environment for the C2 counterexample: the etcd connection fails. -/
def wConnFail : World where
  spawnOuger := .ok ()
  connect := .error "refused"
  listResponse := .ok []
  getValue := fun _ => .ok none
  http := okHttp
  createDirAll := fun _ => .ok ()
  writeFile := fun _ _ => .ok ()
  kill := .ok ()

/-- C2, counterexample: when the store connection fails, the pipeline
returns without ever invoking `kill` on the decoder subprocess — the
teardown is NOT performed on this exit path. -/
theorem c2_counterexample :
    (main_internal wConnFail "out".data).result =
      .error (.connectFailed "refused") ∧
    (main_internal wConnFail "out".data).killed = false := by
  refine ⟨by decide, by decide⟩

/-- C2, amended: the decoder subprocess is terminated only on runs in
which every stage before the kill succeeded: `kill` is invoked exactly
when the run result is success or the kill itself failed; on store
connection, listing, key-decoding and per-key failures the pipeline
returns without terminating the subprocess. -/
theorem c2_kill_only_on_success (w : World) (output_dir : Path) :
    (main_internal w output_dir).killed = true ↔
      ((main_internal w output_dir).result = .ok () ∨
        ∃ e, (main_internal w output_dir).result = .error (.killFailed e)) := by
  cases hs : w.spawnOuger with
  | error e => simp [main_internal, hs]
  | ok u =>
    cases hc : w.connect with
    | error e => simp [main_internal, hs, hc]
    | ok u2 =>
      cases hl : w.listResponse with
      | error e => simp [main_internal, hs, hc, hl]
      | ok kvs =>
        cases hcol : collectKeys kvs with
        | error e => simp [main_internal, hs, hc, hl, hcol]
        | ok keys =>
          cases hfe : firstError (keys.map (get_key w output_dir)) with
          | some e =>
            have hne : ∀ s, e ≠ .killFailed s := by
              obtain ⟨r, hrmem, hre⟩ := List.exists_of_findSome?_eq_some hfe
              obtain ⟨k, hkm, hkr⟩ := List.mem_map.mp hrmem
              have hgk : get_key w output_dir k = .error e := by
                unfold errToOpt at hre
                cases hr2 : r with
                | error e2 =>
                  rw [hr2] at hre
                  simp only [Option.some.injEq] at hre
                  rw [hkr, hr2, hre]
                | ok o =>
                  rw [hr2] at hre
                  cases hre
              exact (get_key_error_shape w output_dir k e hgk).2.2.2.2
            simp only [main_internal, hs, hc, hl, hcol, taskPhase, hfe]
            constructor
            · intro hfalse
              cases hfalse
            · rintro (h1 | ⟨s2, h2⟩)
              · cases h1
              · exact absurd (Except.error.inj h2) (hne s2)
          | none =>
            cases hk : w.kill with
            | error e =>
              simp [main_internal, taskPhase, hs, hc, hl, hcol, hfe, hk]
            | ok u3 =>
              simp [main_internal, taskPhase, hs, hc, hl, hcol, hfe, hk]

/-- Environment for the C2 witness: everything succeeds. -/
def wAllOk : World where
  spawnOuger := .ok ()
  connect := .ok ()
  listResponse := .ok [⟨.ok "/a".data⟩]
  getValue := fun _ => .ok (some [1])
  http := okHttp
  createDirAll := fun _ => .ok ()
  writeFile := fun _ _ => .ok ()
  kill := .ok ()

/-- C2, witness: on a fully successful run the subprocess is killed. -/
theorem c2_witness : (main_internal wAllOk "out".data).killed = true :=
  (c2_kill_only_on_success wAllOk "out".data).mpr (Or.inl (by decide))

/-! ## C8: decoder-launch failure comes first -/

/-- Environment for the C8 witness: spawning the decoder fails. -/
def wSpawnFail : World where
  spawnOuger := .error "no ouger executable"
  connect := .ok ()
  listResponse := .ok []
  getValue := fun _ => .ok none
  http := okHttp
  createDirAll := fun _ => .ok ()
  writeFile := fun _ _ => .ok ()
  kill := .ok ()

/-- C8: if launching the decoder subprocess fails, the run fails with the
decoder-launch error, the store connection is never attempted (the trace
stops at the spawn stage), and no files are written; moreover every run
reaches the stages in the fixed deterministic order spawn, connect,
listing, per-key tasks, kill (every trace is a prefix of that order). -/
theorem c8_launch_failure_first (w : World) (output_dir : Path) (e : String)
    (h : w.spawnOuger = .error e) :
    main_internal w output_dir =
      ⟨.error (.spawnFailed e), [.spawn], false, []⟩ ∧
    Stage.connect ∉ (main_internal w output_dir).trace ∧
    (main_internal w output_dir).writes = [] ∧
    ∀ w2 dir2, (main_internal w2 dir2).trace <+: fullTrace := by
  have h1 : main_internal w output_dir =
      ⟨.error (.spawnFailed e), [.spawn], false, []⟩ := by
    simp [main_internal, h]
  refine ⟨h1, ?_, ?_, fun w2 dir2 => trace_isPrefix w2 dir2⟩
  · rw [h1]
    simp
  · rw [h1]

/-- C8, witness at a concrete failing spawn. -/
theorem c8_witness :
    main_internal wSpawnFail "out".data =
      ⟨.error (.spawnFailed "no ouger executable"), [.spawn], false, []⟩ :=
  (c8_launch_failure_first wSpawnFail "out".data "no ouger executable" rfl).1

/-! ## C6: the listing request and UTF-8 key collection -/

/-- C6: once the decoder is spawned and the store connected, the run
issues the single listing request for the key `/` with options prefix
scan, limit 0 and keys-only; key collection succeeds exactly when every
returned key is valid UTF-8, in which case it returns all keys in order
(no key dropped or replaced), and fails with an error when any key is not
valid UTF-8. -/
theorem c6_listing_request (w : World) (output_dir : Path)
    (h1 : w.spawnOuger = .ok ()) (h2 : w.connect = .ok ()) :
    Stage.list "/".data etcd_get_options ∈ (main_internal w output_dir).trace ∧
    etcd_get_options.prefixFlag = true ∧
    etcd_get_options.limit = 0 ∧
    etcd_get_options.keysOnly = true ∧
    (∀ kvs keys, collectKeys kvs = .ok keys ↔
      kvs.map KeyValue.keyStr = keys.map Except.ok) ∧
    (∀ kvs : List KeyValue, (∃ kv ∈ kvs, ∃ e, kv.keyStr = .error e) →
      ∃ e, collectKeys kvs = .error e) := by
  refine ⟨?_, rfl, rfl, rfl, collectKeys_ok_iff, ?_⟩
  · cases hl : w.listResponse with
    | error e => simp [main_internal, h1, h2, hl, listTrace]
    | ok kvs =>
      cases hcol : collectKeys kvs with
      | error e => simp [main_internal, h1, h2, hl, hcol, listTrace]
      | ok keys =>
        cases hfe : firstError (keys.map (get_key w output_dir)) with
        | some e =>
          simp [main_internal, taskPhase, h1, h2, hl, hcol, hfe, listTrace]
        | none =>
          cases hk : w.kill with
          | error e =>
            simp [main_internal, taskPhase, h1, h2, hl, hcol, hfe, hk,
              listTrace]
          | ok u =>
            simp [main_internal, taskPhase, h1, h2, hl, hcol, hfe, hk,
              listTrace]
  · rintro kvs ⟨kv, hmem, e, he⟩
    cases hcol : collectKeys kvs with
    | error e2 => exact ⟨e2, rfl⟩
    | ok keys =>
      have hmap := (collectKeys_ok_iff kvs keys).mp hcol
      have hin : kv.keyStr ∈ kvs.map KeyValue.keyStr :=
        List.mem_map_of_mem _ hmem
      rw [hmap] at hin
      obtain ⟨k, -, hk⟩ := List.mem_map.mp hin
      rw [he] at hk
      cases hk

/-- Environment for the C6 witness. -/
def wC6 : World where
  spawnOuger := .ok ()
  connect := .ok ()
  listResponse := .ok []
  getValue := fun _ => .ok none
  http := okHttp
  createDirAll := fun _ => .ok ()
  writeFile := fun _ _ => .ok ()
  kill := .ok ()

/-- C6, witness: the listing request appears in a concrete run's trace. -/
theorem c6_witness :
    Stage.list "/".data etcd_get_options ∈ (main_internal wC6 "out".data).trace :=
  (c6_listing_request wC6 "out".data rfl rfl).1

/-! ## C4: keys deleted between listing and fetching -/

/-- Environment for the C4 witness: one listed key, already deleted at
fetch time. -/
def wDeleted : World where
  spawnOuger := .ok ()
  connect := .ok ()
  listResponse := .ok [⟨.ok "/gone".data⟩]
  getValue := fun _ => .ok none
  http := okHttp
  createDirAll := fun _ => .ok ()
  writeFile := fun _ _ => .ok ()
  kill := .ok ()

/-- C4: a per-key task whose fetch returns no value completes successfully
without writing a file, and a run all of whose keys were deleted between
listing and fetching still succeeds with no file written. -/
theorem c4_deleted_key_ok (w : World) (output_dir k : Path)
    (h : w.getValue k = .ok none) :
    get_key w output_dir k = .ok none ∧
    okWrite (get_key w output_dir k) = none ∧
    (main_internal wDeleted "out".data).result = .ok () ∧
    (main_internal wDeleted "out".data).writes = [] := by
  have hg := get_key_of_deleted w output_dir k h
  refine ⟨hg, by rw [hg]; rfl, by decide, by decide⟩

/-- C4, witness at the concrete deleted key. -/
theorem c4_witness : get_key wDeleted "out".data "/gone".data = .ok none :=
  (c4_deleted_key_ok wDeleted "out".data "/gone".data rfl).1

/-! ## C9: first task failure wins, no rollback -/

/-- Environment for the C9 witness: fetching `/a` succeeds, fetching `/b`
fails. -/
def wC9 : World where
  spawnOuger := .ok ()
  connect := .ok ()
  listResponse := .ok [⟨.ok "/a".data⟩, ⟨.ok "/b".data⟩]
  getValue := fun k => if k = "/b".data then .error "boom" else .ok (some [1])
  http := okHttp
  createDirAll := fun _ => .ok ()
  writeFile := fun _ _ => .ok ()
  kill := .ok ()

/-- C9: when the keys split as `ks1 ++ kf :: ks2` with every task before
`kf` succeeding and the task for `kf` failing with `e`, the run returns
exactly that first failure, the writes on disk are those of all
successfully completed tasks (no file is removed or rolled back, sibling
tasks keep their writes), the decoder subprocess is not killed, and the
failed task contributes no write. -/
theorem c9_first_task_failure (w : World) (output_dir : Path)
    (ks1 ks2 : List Path) (kf : Path) (e : PipelineError)
    (h1 : w.spawnOuger = .ok ()) (h2 : w.connect = .ok ())
    (hk : listedKeys w = some (ks1 ++ kf :: ks2))
    (hok1 : ∀ k ∈ ks1, errToOpt (get_key w output_dir k) = none)
    (hf : get_key w output_dir kf = .error e) :
    (main_internal w output_dir).result = .error e ∧
    (main_internal w output_dir).writes =
      ((ks1 ++ kf :: ks2).map (get_key w output_dir)).filterMap okWrite ∧
    (main_internal w output_dir).killed = false ∧
    okWrite (get_key w output_dir kf) = none := by
  obtain ⟨kvs, hl, hcol⟩ := listedKeys_inv w _ hk
  have hmt := main_internal_eq_taskPhase w output_dir kvs _ h1 h2 hl hcol
  have hfe : firstError ((ks1 ++ kf :: ks2).map (get_key w output_dir)) =
      some e := by
    rw [List.map_append, List.map_cons]
    refine firstError_of_prefix_ok _ _ _ _ ?_ ?_
    · intro x hx
      obtain ⟨k, hkm, hkx⟩ := List.mem_map.mp hx
      rw [← hkx]
      exact hok1 k hkm
    · rw [hf]
      rfl
  rw [hmt]
  simp only [taskPhase]
  rw [hfe]
  simp [okWrite, hf]

/-- C9, witness: the failure of the second task is the run's result. -/
theorem c9_witness :
    (main_internal wC9 "out".data).result = .error (.etcdGetFailed "boom") :=
  (c9_first_task_failure wC9 "out".data ["/a".data] [] "/b".data
    (.etcdGetFailed "boom") rfl rfl (by decide) (by decide) (by decide)).1

/-! ## C1: the snapshot correspondence -/

/-- Environment for the C1 counterexample: two distinct keys, `/a` and
`//a`, that derive the same output file path. -/
def wDup : World where
  spawnOuger := .ok ()
  connect := .ok ()
  listResponse := .ok [⟨.ok "/a".data⟩, ⟨.ok "//a".data⟩]
  getValue := fun k => if k = "/a".data then .ok (some [1]) else .ok (some [2])
  http := okHttp
  createDirAll := fun _ => .ok ()
  writeFile := fun _ _ => .ok ()
  kill := .ok ()

/-- C1, counterexample: a successful run whose listing returned the two
distinct keys `/a` and `//a`, both of whose values still existed at fetch
time, writes both to the SAME output file — the set of output files has
one element for two keys, so it is not in 1:1 correspondence with the
fetched keys. -/
theorem c1_counterexample :
    listedKeys wDup = some ["/a".data, "//a".data] ∧
    "/a".data ≠ "//a".data ∧
    (main_internal wDup "out".data).result = .ok () ∧
    survivors wDup ["/a".data, "//a".data] = ["/a".data, "//a".data] ∧
    outputFile "out".data "/a".data = outputFile "out".data "//a".data ∧
    ¬ ((main_internal wDup "out".data).writes.map Prod.fst).Nodup := by
  refine ⟨by decide, by decide, by decide, by decide, by decide, by decide⟩

/-- C1, amended: for every successful run, PROVIDED the derived output
paths of the listed keys that survived to fetch time are pairwise
distinct (which can fail, e.g. for keys differing only in leading
separators), the files written are exactly one per surviving key, at the
path derived from the key, containing the decoder's output for that key's
fetched value, with all paths distinct. -/
theorem c1_snapshot_one_to_one (w : World) (output_dir : Path)
    (keys : List Path)
    (hk : listedKeys w = some keys)
    (hok : (main_internal w output_dir).result = .ok ())
    (hnd : ((survivors w keys).map (outputFile output_dir)).Nodup) :
    (main_internal w output_dir).writes =
      (survivors w keys).map
        (fun k => (outputFile output_dir k, decodeOf w k)) ∧
    ((main_internal w output_dir).writes.map Prod.fst).Nodup := by
  obtain ⟨kvs, hl, hcol⟩ := listedKeys_inv w keys hk
  cases hs : w.spawnOuger with
  | error e => simp [main_internal, hs] at hok
  | ok u =>
    cases u
    cases hc : w.connect with
    | error e => simp [main_internal, hs, hc] at hok
    | ok u2 =>
      cases u2
      have hmt := main_internal_eq_taskPhase w output_dir kvs keys hs hc hl hcol
      rw [hmt] at hok ⊢
      cases hfe : firstError (keys.map (get_key w output_dir)) with
      | some e => simp [taskPhase, hfe] at hok
      | none =>
        have hall : ∀ k ∈ keys, errToOpt (get_key w output_dir k) = none := by
          unfold firstError at hfe
          intro k hk2
          exact List.findSome?_eq_none_iff.mp hfe _ (List.mem_map_of_mem _ hk2)
        have hwrites := writes_of_all_ok w output_dir keys hall
        cases hkill : w.kill with
        | error e => simp [taskPhase, hfe, hkill] at hok
        | ok u3 =>
          simp only [taskPhase, hfe, hkill]
          refine ⟨hwrites, ?_⟩
          rw [hwrites, List.map_map]
          rw [show Prod.fst ∘ (fun k => (outputFile output_dir k, decodeOf w k))
            = outputFile output_dir from rfl]
          exact hnd

/-- Environment for the C1 witness: a single key with a value. -/
def wOne : World where
  spawnOuger := .ok ()
  connect := .ok ()
  listResponse := .ok [⟨.ok "/a".data⟩]
  getValue := fun _ => .ok (some [1])
  http := okHttp
  createDirAll := fun _ => .ok ()
  writeFile := fun _ _ => .ok ()
  kill := .ok ()

/-- C1, witness at a concrete successful run. -/
theorem c1_witness :
    (main_internal wOne "out".data).writes =
      (survivors wOne ["/a".data]).map
        (fun k => (outputFile "out".data k, decodeOf wOne k)) ∧
    ((main_internal wOne "out".data).writes.map Prod.fst).Nodup :=
  c1_snapshot_one_to_one wOne "out".data ["/a".data] (by decide) (by decide)
    (by decide)

end Etcddump
